import Mathlib

/-!
Shallow embedding of the PrivOracle contract (Solidity source): an
encrypted price-prediction game for two assets with daily price updates.

Encrypted handle types (euint64, euint8, euint128, ebool) are modelled by
the plaintext values they encrypt, following the spec's design note that
the settlement logic is testable against a plaintext stand-in of the
confidential-value engine over ordinary integers and booleans.  Machine
integers are Nat with explicit truncation (% 2 ^ w) where Solidity
narrows.  Each external entry point is a function from state and call
arguments to Except: an error value models a revert, after which the EVM
discards every write of the transaction.
-/

namespace PrivOracle

/-- Day index: block.timestamp / 1 days. -/
def currentDay (timestamp : Nat) : Nat := timestamp / 86400

/-- Per-(user, asset, day) prediction record.  The price and direction
fields hold the plaintexts of the euint64 / euint8 handles. -/
structure Prediction where
  price : Nat
  direction : Nat
  stake : Nat
  confirmed : Bool
  exists_ : Bool
  deriving Repr, DecidableEq

/-- Full contract storage.  Solidity mappings become total functions with
the zero value as default. -/
structure OracleState where
  owner : Nat
  dailyPrice : Nat → Nat → Nat
  priceRecorded : Nat → Nat → Bool
  latestDay : Nat → Nat
  predictions : Nat → Nat → Nat → Prediction
  points : Nat → Nat
  pointsInitialized : Nat → Bool

/-- Error taxonomy: one constructor per distinct require message of the
contract, named as in the spec. -/
inductive OracleError
  | Unauthorized
  | InvalidAsset
  | ValueOutOfRange
  | AlreadyRecorded
  | NoStake
  | PredictionExists
  | InvalidProof
  | TooEarly
  | PriceNotRecorded
  | PredictionMissing
  | AlreadyConfirmed
  deriving Repr, DecidableEq

/-- Default value of a Prediction storage slot. -/
def emptyPrediction : Prediction :=
  { price := 0, direction := 0, stake := 0, confirmed := false, exists_ := false }

/-- State right after the constructor ran with the given deployer. -/
def initState (owner : Nat) : OracleState :=
  { owner := owner
    dailyPrice := fun _ _ => 0
    priceRecorded := fun _ _ => false
    latestDay := fun _ => 0
    predictions := fun _ _ _ => emptyPrediction
    points := fun _ => 0
    pointsInitialized := fun _ => false }

/-- recordDailyPrice(asset, price), onlyOwner; records at the current day. -/
def recordDailyPrice (s : OracleState) (sender timestamp asset price : Nat) :
    Except OracleError OracleState :=
  if sender ≠ s.owner then .error .Unauthorized
  else if 1 < asset then .error .InvalidAsset
  else if 2 ^ 64 - 1 < price then .error .ValueOutOfRange
  else
    let day := currentDay timestamp
    if s.priceRecorded asset day then .error .AlreadyRecorded
    else .ok { s with
      dailyPrice := fun a d => if a = asset ∧ d = day then price else s.dailyPrice a d
      priceRecorded := fun a d => if a = asset ∧ d = day then true else s.priceRecorded a d
      latestDay := fun a => if a = asset then day else s.latestDay a }

/-- Lazy per-user points initialization (_initPoints). -/
def initPoints (user : Nat) (s : OracleState) : OracleState :=
  if s.pointsInitialized user then s
  else { s with
    points := fun u => if u = user then 0 else s.points u
    pointsInitialized := fun u => if u = user then true else s.pointsInitialized u }

/-- placePrediction(asset, encryptedPrice, encryptedDirection, inputProof)
payable.  The two external ciphertexts are given by their plaintexts; the
shared input proof by its validity.  FHE.fromExternal yields handles of
widths 64 and 8, hence the truncations. -/
def placePrediction (s : OracleState) (sender timestamp asset : Nat)
    (encryptedPrice encryptedDirection : Nat) (proofValid : Bool) (msgValue : Nat) :
    Except OracleError OracleState :=
  if 1 < asset then .error .InvalidAsset
  else if msgValue = 0 then .error .NoStake
  else if 2 ^ 128 - 1 < msgValue then .error .ValueOutOfRange
  else
    let day := currentDay timestamp + 1
    if (s.predictions sender asset day).exists_ then .error .PredictionExists
    else if ¬ proofValid then .error .InvalidProof
    else
      let newPrediction : Prediction :=
        { price := encryptedPrice % 2 ^ 64
          direction := encryptedDirection % 2 ^ 8
          stake := msgValue
          confirmed := false
          exists_ := true }
      .ok (initPoints sender { s with
        predictions := fun u a d =>
          if u = sender ∧ a = asset ∧ d = day then newPrediction
          else s.predictions u a d })

/-- confirmPrediction(asset, day): settles the caller's own (asset, day)
prediction against the recorded plaintext price.  The homomorphic
comparison/boolean/select steps are computed on the plaintext stand-ins;
FHE.add on euint128 wraps modulo 2 ^ 128; uint64(price) and
uint128(stake) are explicit narrowing conversions. -/
def confirmPrediction (s : OracleState) (sender timestamp asset day : Nat) :
    Except OracleError OracleState :=
  if 1 < asset then .error .InvalidAsset
  else if currentDay timestamp < day then .error .TooEarly
  else if ¬ s.priceRecorded asset day then .error .PriceNotRecorded
  else
    let p := s.predictions sender asset day
    if ¬ p.exists_ then .error .PredictionMissing
    else if p.confirmed then .error .AlreadyConfirmed
    else
      let price := s.dailyPrice asset day
      let actual := price % 2 ^ 64
      let isGreater := decide (p.price < actual)
      let isLess := decide (actual < p.price)
      let dirGreater := decide (p.direction = 1)
      let dirLess := decide (p.direction = 2)
      let isCorrect := (dirGreater && isGreater) || (dirLess && isLess)
      let reward := if isCorrect then p.stake % 2 ^ 128 else 0
      .ok { s with
        points := fun u =>
          if u = sender then (s.points u + reward) % 2 ^ 128 else s.points u
        predictions := fun u a d =>
          if u = sender ∧ a = asset ∧ d = day then { p with confirmed := true }
          else s.predictions u a d }

/-- getPrice(asset, day) view. -/
def getPrice (s : OracleState) (asset day : Nat) : Nat × Bool :=
  (s.dailyPrice asset day, s.priceRecorded asset day)

/-- getLatestDay(asset) view. -/
def getLatestDay (s : OracleState) (asset : Nat) : Nat :=
  s.latestDay asset

/-- getPrediction(user, asset, day) view. -/
def getPrediction (s : OracleState) (user asset day : Nat) : Prediction :=
  s.predictions user asset day

/-- getPoints(user) view. -/
def getPoints (s : OracleState) (user : Nat) : Nat :=
  s.points user

/-- One external transaction sent to the contract. -/
inductive OracleCall
  | record (sender timestamp asset price : Nat)
  | place (sender timestamp asset encryptedPrice encryptedDirection : Nat)
      (proofValid : Bool) (msgValue : Nat)
  | confirm (sender timestamp asset day : Nat)
  deriving Repr, DecidableEq

/-- Outcome of one transaction. -/
def callResult (s : OracleState) : OracleCall → Except OracleError OracleState
  | .record sender timestamp asset price =>
      recordDailyPrice s sender timestamp asset price
  | .place sender timestamp asset encryptedPrice encryptedDirection proofValid msgValue =>
      placePrediction s sender timestamp asset encryptedPrice encryptedDirection
        proofValid msgValue
  | .confirm sender timestamp asset day =>
      confirmPrediction s sender timestamp asset day

/-- EVM transaction semantics: a revert leaves storage exactly as before. -/
def applyCall (s : OracleState) (c : OracleCall) : OracleState :=
  match callResult s c with
  | .ok s2 => s2
  | .error _ => s

/-- Run a sequence of transactions. -/
def run (s : OracleState) (calls : List OracleCall) : OracleState :=
  calls.foldl applyCall s

/-- Timestamp a transaction executed at. -/
def callTimestamp : OracleCall → Nat
  | .record _ timestamp _ _ => timestamp
  | .place _ timestamp _ _ _ _ _ => timestamp
  | .confirm _ timestamp _ _ => timestamp

/-- States reachable from deployment by some sequence of transactions. -/
def Reachable (s : OracleState) : Prop :=
  ∃ owner calls, run (initState owner) calls = s

/-- Boolean success test for a call outcome. -/
def isSuccess (r : Except OracleError OracleState) : Bool :=
  match r with
  | .ok _ => true
  | .error _ => false

/-- Boolean test that a call failed with the given error. -/
def isError (r : Except OracleError OracleState) (e : OracleError) : Bool :=
  match r with
  | .ok _ => false
  | .error e2 => e2 == e

/-- Plaintext view of the settlement reward confirmPrediction would merge
into the caller's points for the given key. -/
def rewardOf (s : OracleState) (sender asset day : Nat) : Nat :=
  let p := s.predictions sender asset day
  let actual := s.dailyPrice asset day % 2 ^ 64
  if (p.direction = 1 ∧ p.price < actual) ∨ (p.direction = 2 ∧ actual < p.price)
  then p.stake % 2 ^ 128 else 0

/-- Day of the most recent successful recordDailyPrice call for the given
asset along a transaction sequence, defaulting when none succeeds. -/
def lastSuccessDay (a : Nat) (s : OracleState) (dflt : Nat) :
    List OracleCall → Nat
  | [] => dflt
  | c :: rest =>
    let dflt2 :=
      match c with
      | .record sender timestamp asset price =>
          match recordDailyPrice s sender timestamp asset price with
          | .ok _ => if asset = a then currentDay timestamp else dflt
          | .error _ => dflt
      | _ => dflt
    lastSuccessDay a (applyCall s c) dflt2 rest

/-- Per-key stake bounds that placePrediction establishes. -/
def StakeInv (s : OracleState) : Prop :=
  ∀ u a d, (s.predictions u a d).exists_ = true →
    0 < (s.predictions u a d).stake ∧ (s.predictions u a d).stake ≤ 2 ^ 128 - 1

/- Concrete demonstration scenario used by witnesses: deployer 0, user 1
places a prediction (asset ETH, predicted 1900, direction greater, stake
0.1 ether) at timestamp 0, the owner records price 2000 for day 1. -/

/-- Demonstration: freshly deployed state, owner 0. -/
def sDemo0 : OracleState := initState 0

/-- Demonstration: user 1 predicts 1900 / greater on ETH for day 1. -/
def cPlaceDemo : OracleCall := .place 1 0 0 1900 1 true 100000000000000000

/-- Demonstration state after the prediction. -/
def sDemo1 : OracleState := applyCall sDemo0 cPlaceDemo

/-- Demonstration: the owner records ETH price 2000 at day 1. -/
def cRecordDemo : OracleCall := .record 0 86400 0 2000

/-- Demonstration state after the price record. -/
def sDemo2 : OracleState := applyCall sDemo1 cRecordDemo

/-- Demonstration: user 1 confirms their day-1 ETH prediction. -/
def cConfirmDemo : OracleCall := .confirm 1 86400 0 1

/-- Demonstration state after confirmation. -/
def sDemo3 : OracleState := applyCall sDemo2 cConfirmDemo

/-! Helper lemmas characterizing the three entry points. -/

theorem initPoints_fields (u : Nat) (s : OracleState) :
    (initPoints u s).owner = s.owner ∧
    (initPoints u s).dailyPrice = s.dailyPrice ∧
    (initPoints u s).priceRecorded = s.priceRecorded ∧
    (initPoints u s).latestDay = s.latestDay ∧
    (initPoints u s).predictions = s.predictions := by
  unfold initPoints
  split <;> exact ⟨rfl, rfl, rfl, rfl, rfl⟩

theorem recordDailyPrice_ok (s : OracleState) (sender ts asset price : Nat)
    (hsend : sender = s.owner) (ha : asset ≤ 1) (hp : price ≤ 2 ^ 64 - 1)
    (hrec : s.priceRecorded asset (currentDay ts) = false) :
    recordDailyPrice s sender ts asset price = .ok { s with
      dailyPrice := fun a d =>
        if a = asset ∧ d = currentDay ts then price else s.dailyPrice a d
      priceRecorded := fun a d =>
        if a = asset ∧ d = currentDay ts then true else s.priceRecorded a d
      latestDay := fun a =>
        if a = asset then currentDay ts else s.latestDay a } := by
  unfold recordDailyPrice
  rw [if_neg (by simp [hsend]), if_neg (by omega), if_neg (by omega),
    if_neg (by simp [hrec])]

theorem recordDailyPrice_ok_elim {s s2 : OracleState} {sender ts asset price : Nat}
    (h : recordDailyPrice s sender ts asset price = .ok s2) :
    sender = s.owner ∧ asset ≤ 1 ∧ price ≤ 2 ^ 64 - 1 ∧
    s.priceRecorded asset (currentDay ts) = false ∧
    s2 = { s with
      dailyPrice := fun a d =>
        if a = asset ∧ d = currentDay ts then price else s.dailyPrice a d
      priceRecorded := fun a d =>
        if a = asset ∧ d = currentDay ts then true else s.priceRecorded a d
      latestDay := fun a =>
        if a = asset then currentDay ts else s.latestDay a } := by
  unfold recordDailyPrice at h
  dsimp only at h
  split at h
  · exact Except.noConfusion h
  split at h
  · exact Except.noConfusion h
  split at h
  · exact Except.noConfusion h
  split at h
  · exact Except.noConfusion h
  rename_i h1 h2 h3 h4
  injection h with h5
  exact ⟨by omega, by omega, by omega, by simpa using h4, h5.symm⟩

theorem placePrediction_ok (s : OracleState) (sender ts asset ep ed : Nat)
    (pv : Bool) (mv : Nat)
    (ha : asset ≤ 1) (hmv : 0 < mv) (hmv2 : mv ≤ 2 ^ 128 - 1)
    (habs : (s.predictions sender asset (currentDay ts + 1)).exists_ = false)
    (hpv : pv = true) :
    placePrediction s sender ts asset ep ed pv mv = .ok
      (initPoints sender { s with
        predictions := fun u a d =>
          if u = sender ∧ a = asset ∧ d = currentDay ts + 1 then
            { price := ep % 2 ^ 64, direction := ed % 2 ^ 8, stake := mv,
              confirmed := false, exists_ := true }
          else s.predictions u a d }) := by
  unfold placePrediction
  rw [if_neg (by omega), if_neg (by omega), if_neg (by omega),
    if_neg (by simp [habs]), if_neg (by simp [hpv])]

theorem placePrediction_ok_elim {s s2 : OracleState}
    {sender ts asset ep ed : Nat} {pv : Bool} {mv : Nat}
    (h : placePrediction s sender ts asset ep ed pv mv = .ok s2) :
    asset ≤ 1 ∧ 0 < mv ∧ mv ≤ 2 ^ 128 - 1 ∧
    (s.predictions sender asset (currentDay ts + 1)).exists_ = false ∧ pv = true ∧
    s2 = initPoints sender { s with
      predictions := fun u a d =>
        if u = sender ∧ a = asset ∧ d = currentDay ts + 1 then
          { price := ep % 2 ^ 64, direction := ed % 2 ^ 8, stake := mv,
            confirmed := false, exists_ := true }
        else s.predictions u a d } := by
  unfold placePrediction at h
  dsimp only at h
  split at h
  · exact Except.noConfusion h
  split at h
  · exact Except.noConfusion h
  split at h
  · exact Except.noConfusion h
  split at h
  · exact Except.noConfusion h
  split at h
  · exact Except.noConfusion h
  rename_i h1 h2 h3 h4 h5
  injection h with h6
  exact ⟨by omega, by omega, by omega, by simpa using h4, by simpa using h5, h6.symm⟩

theorem confirmPrediction_ok (s : OracleState) (sender ts asset day : Nat)
    (ha : asset ≤ 1) (hday : day ≤ currentDay ts)
    (hrec : s.priceRecorded asset day = true)
    (hex : (s.predictions sender asset day).exists_ = true)
    (hcf : (s.predictions sender asset day).confirmed = false) :
    confirmPrediction s sender ts asset day = .ok { s with
      points := fun u =>
        if u = sender then (s.points u + rewardOf s sender asset day) % 2 ^ 128
        else s.points u
      predictions := fun u a d =>
        if u = sender ∧ a = asset ∧ d = day then
          { s.predictions sender asset day with confirmed := true }
        else s.predictions u a d } := by
  unfold confirmPrediction
  rw [if_neg (by omega), if_neg (by omega), if_neg (by simp [hrec]),
    if_neg (by simp [hex]), if_neg (by simp [hcf])]
  simp only [rewardOf, Bool.or_eq_true, Bool.and_eq_true, decide_eq_true_eq]

theorem confirmPrediction_ok_elim {s s2 : OracleState} {sender ts asset day : Nat}
    (h : confirmPrediction s sender ts asset day = .ok s2) :
    asset ≤ 1 ∧ day ≤ currentDay ts ∧ s.priceRecorded asset day = true ∧
    (s.predictions sender asset day).exists_ = true ∧
    (s.predictions sender asset day).confirmed = false ∧
    s2 = { s with
      points := fun u =>
        if u = sender then (s.points u + rewardOf s sender asset day) % 2 ^ 128
        else s.points u
      predictions := fun u a d =>
        if u = sender ∧ a = asset ∧ d = day then
          { s.predictions sender asset day with confirmed := true }
        else s.predictions u a d } := by
  unfold confirmPrediction at h
  dsimp only at h
  split at h
  · exact Except.noConfusion h
  split at h
  · exact Except.noConfusion h
  split at h
  · exact Except.noConfusion h
  split at h
  · exact Except.noConfusion h
  split at h
  · exact Except.noConfusion h
  rename_i h1 h2 h3 h4 h5
  injection h with h6
  refine ⟨by omega, by omega, by simpa using h3, by simpa using h4,
    by simpa using h5, ?_⟩
  rw [← h6]
  simp only [rewardOf, Bool.or_eq_true, Bool.and_eq_true, decide_eq_true_eq]

theorem placePrediction_frame {s s2 : OracleState}
    {sender ts asset ep ed : Nat} {pv : Bool} {mv : Nat}
    (h : placePrediction s sender ts asset ep ed pv mv = .ok s2) :
    s2.owner = s.owner ∧ s2.dailyPrice = s.dailyPrice ∧
    s2.priceRecorded = s.priceRecorded ∧ s2.latestDay = s.latestDay := by
  obtain ⟨-, -, -, -, -, hs2⟩ := placePrediction_ok_elim h
  obtain ⟨h1, h2, h3, h4, -⟩ := initPoints_fields sender
    { s with predictions := fun u a d =>
        if u = sender ∧ a = asset ∧ d = currentDay ts + 1 then
          { price := ep % 2 ^ 64, direction := ed % 2 ^ 8, stake := mv,
            confirmed := false, exists_ := true }
        else s.predictions u a d }
  subst hs2
  exact ⟨h1, h2, h3, h4⟩

theorem confirmPrediction_frame {s s2 : OracleState} {sender ts asset day : Nat}
    (h : confirmPrediction s sender ts asset day = .ok s2) :
    s2.owner = s.owner ∧ s2.dailyPrice = s.dailyPrice ∧
    s2.priceRecorded = s.priceRecorded ∧ s2.latestDay = s.latestDay ∧
    s2.pointsInitialized = s.pointsInitialized := by
  obtain ⟨-, -, -, -, -, hs2⟩ := confirmPrediction_ok_elim h
  subst hs2
  exact ⟨rfl, rfl, rfl, rfl, rfl⟩

theorem applyCall_recorded_preserved (s : OracleState) (c : OracleCall)
    (a d : Nat) (h : s.priceRecorded a d = true) :
    (applyCall s c).priceRecorded a d = true ∧
    (applyCall s c).dailyPrice a d = s.dailyPrice a d := by
  unfold applyCall
  cases hres : callResult s c with
  | error e => exact ⟨h, rfl⟩
  | ok s2 =>
    cases c with
    | record sender ts asset price =>
      obtain ⟨-, -, -, hfree, hs2⟩ := recordDailyPrice_ok_elim hres
      subst hs2
      by_cases hc : a = asset ∧ d = currentDay ts
      · rw [hc.1, hc.2] at h
        rw [h] at hfree
        exact Bool.noConfusion hfree
      · simp only [hc, if_false]
        exact ⟨h, trivial⟩
    | place sender ts asset ep ed pv mv =>
      obtain ⟨-, h2, h3, -⟩ := placePrediction_frame hres
      rw [h2, h3]
      exact ⟨h, rfl⟩
    | confirm sender ts asset day =>
      obtain ⟨-, h2, h3, -⟩ := confirmPrediction_frame hres
      rw [h2, h3]
      exact ⟨h, rfl⟩

theorem run_recorded_preserved (s : OracleState) (calls : List OracleCall)
    (a d : Nat) (h : s.priceRecorded a d = true) :
    (run s calls).priceRecorded a d = true ∧
    (run s calls).dailyPrice a d = s.dailyPrice a d := by
  induction calls generalizing s with
  | nil => exact ⟨h, rfl⟩
  | cons c rest ih =>
    obtain ⟨h1, h2⟩ := applyCall_recorded_preserved s c a d h
    obtain ⟨h3, h4⟩ := ih (applyCall s c) h1
    exact ⟨h3, h4.trans h2⟩

theorem run_append (s : OracleState) (l1 l2 : List OracleCall) :
    run s (l1 ++ l2) = run (run s l1) l2 :=
  List.foldl_append applyCall s l1 l2

theorem applyCall_latestDay_cases (s : OracleState) (c : OracleCall) (a : Nat) :
    (applyCall s c).latestDay a = s.latestDay a ∨
    (applyCall s c).latestDay a = currentDay (callTimestamp c) := by
  unfold applyCall
  cases hres : callResult s c with
  | error e => exact Or.inl rfl
  | ok s2 =>
    cases c with
    | record sender ts asset price =>
      obtain ⟨-, -, -, -, hs2⟩ := recordDailyPrice_ok_elim hres
      subst hs2
      by_cases hc : a = asset
      · exact Or.inr (by simp [hc, callTimestamp])
      · exact Or.inl (by simp [hc])
    | place sender ts asset ep ed pv mv =>
      obtain ⟨-, -, -, h4⟩ := placePrediction_frame hres
      exact Or.inl (by rw [h4])
    | confirm sender ts asset day =>
      obtain ⟨-, -, -, h4, -⟩ := confirmPrediction_frame hres
      exact Or.inl (by rw [h4])

theorem run_latestDay_upper (calls : List OracleCall) (s : OracleState) (B : Nat)
    (hB : ∀ a, s.latestDay a ≤ B)
    (hts : ∀ c ∈ calls, currentDay (callTimestamp c) ≤ B) :
    ∀ a, (run s calls).latestDay a ≤ B := by
  induction calls generalizing s with
  | nil => exact hB
  | cons c rest ih =>
    refine ih (applyCall s c) ?_ (fun c2 hc2 => hts c2 (List.mem_cons_of_mem c hc2))
    intro a
    rcases applyCall_latestDay_cases s c a with h | h
    · rw [h]; exact hB a
    · rw [h]; exact hts c (List.mem_cons_self c rest)

theorem run_latestDay_lower (calls : List OracleCall) (s : OracleState) (B : Nat)
    (hB : ∀ a, s.latestDay a ≤ B)
    (hts : ∀ c ∈ calls, B ≤ currentDay (callTimestamp c))
    (hmono : calls.Pairwise (fun c c2 => callTimestamp c ≤ callTimestamp c2)) :
    ∀ a, s.latestDay a ≤ (run s calls).latestDay a := by
  induction calls generalizing s B with
  | nil => exact fun a => Nat.le_refl _
  | cons c rest ih =>
    intro a
    have hcB : B ≤ currentDay (callTimestamp c) := hts c (List.mem_cons_self c rest)
    have hstep : ∀ a2, s.latestDay a2 ≤ (applyCall s c).latestDay a2 ∧
        (applyCall s c).latestDay a2 ≤ currentDay (callTimestamp c) := by
      intro a2
      rcases applyCall_latestDay_cases s c a2 with h | h
      · rw [h]; exact ⟨Nat.le_refl _, Nat.le_trans (hB a2) hcB⟩
      · rw [h]; exact ⟨Nat.le_trans (hB a2) hcB, Nat.le_refl _⟩
    have hrest : ∀ c2 ∈ rest, currentDay (callTimestamp c) ≤ currentDay (callTimestamp c2) := by
      intro c2 hc2
      exact Nat.div_le_div_right ((List.pairwise_cons.mp hmono).1 c2 hc2)
    have := ih (applyCall s c) (currentDay (callTimestamp c))
      (fun a2 => (hstep a2).2) hrest (List.pairwise_cons.mp hmono).2 a
    exact Nat.le_trans (hstep a).1 this

theorem run_latestDay_lastSuccess (calls : List OracleCall) (s : OracleState)
    (a dflt : Nat) (hd : dflt = s.latestDay a) :
    (run s calls).latestDay a = lastSuccessDay a s dflt calls := by
  induction calls generalizing s dflt with
  | nil => exact hd.symm
  | cons c rest ih =>
    show (run (applyCall s c) rest).latestDay a = _
    unfold lastSuccessDay
    apply ih
    cases c with
    | record sender ts asset price =>
      dsimp only [applyCall, callResult]
      cases hres : recordDailyPrice s sender ts asset price with
      | error e => exact hd
      | ok s2 =>
        obtain ⟨-, -, -, -, hs2⟩ := recordDailyPrice_ok_elim hres
        subst hs2
        by_cases hc : asset = a
        · subst hc
          simp
        · simp only [if_neg hc, hd,
            if_neg (show ¬ a = asset from fun h => hc h.symm)]
    | place sender ts asset ep ed pv mv =>
      dsimp only [applyCall, callResult]
      cases hres : placePrediction s sender ts asset ep ed pv mv with
      | error e => exact hd
      | ok s2 =>
        obtain ⟨-, -, -, h4⟩ := placePrediction_frame hres
        rw [hd, h4]
    | confirm sender ts asset day =>
      dsimp only [applyCall, callResult]
      cases hres : confirmPrediction s sender ts asset day with
      | error e => exact hd
      | ok s2 =>
        obtain ⟨-, -, -, h4, -⟩ := confirmPrediction_frame hres
        rw [hd, h4]

theorem confirmPrediction_missing (s : OracleState) (sender ts asset day : Nat)
    (ha : asset ≤ 1) (hday : day ≤ currentDay ts)
    (hrec : s.priceRecorded asset day = true)
    (hex : (s.predictions sender asset day).exists_ = false) :
    confirmPrediction s sender ts asset day = .error .PredictionMissing := by
  unfold confirmPrediction
  rw [if_neg (by omega), if_neg (by omega), if_neg (by simp [hrec]),
    if_pos (by simp [hex])]

theorem confirmPrediction_already (s : OracleState) (sender ts asset day : Nat)
    (ha : asset ≤ 1) (hday : day ≤ currentDay ts)
    (hrec : s.priceRecorded asset day = true)
    (hex : (s.predictions sender asset day).exists_ = true)
    (hcf : (s.predictions sender asset day).confirmed = true) :
    confirmPrediction s sender ts asset day = .error .AlreadyConfirmed := by
  unfold confirmPrediction
  rw [if_neg (by omega), if_neg (by omega), if_neg (by simp [hrec]),
    if_neg (by simp [hex]), if_pos (by simp [hcf])]

theorem stakeInv_init (o : Nat) : StakeInv (initState o) := by
  intro u a d h
  exact absurd h (by simp [initState, emptyPrediction])

theorem stakeInv_applyCall (s : OracleState) (c : OracleCall) (h : StakeInv s) :
    StakeInv (applyCall s c) := by
  unfold applyCall
  cases hres : callResult s c with
  | error e => exact h
  | ok s2 =>
    cases c with
    | record sender ts asset price =>
      obtain ⟨-, -, -, -, hs2⟩ := recordDailyPrice_ok_elim hres
      subst hs2
      exact h
    | place sender ts asset ep ed pv mv =>
      obtain ⟨-, hmv, hmv2, -, -, hs2⟩ := placePrediction_ok_elim hres
      subst hs2
      intro u a d
      rw [(initPoints_fields sender _).2.2.2.2]
      dsimp only
      by_cases hc : u = sender ∧ a = asset ∧ d = currentDay ts + 1
      · simp only [if_pos hc]
        intro _
        exact ⟨hmv, hmv2⟩
      · simp only [if_neg hc]
        exact h u a d
    | confirm sender ts asset day =>
      obtain ⟨-, -, -, -, -, hs2⟩ := confirmPrediction_ok_elim hres
      subst hs2
      intro u a d
      dsimp only
      by_cases hc : u = sender ∧ a = asset ∧ d = day
      · simp only [if_pos hc]
        exact fun hex => h sender asset day hex
      · simp only [if_neg hc]
        exact h u a d

theorem stakeInv_run (s : OracleState) (calls : List OracleCall)
    (h : StakeInv s) : StakeInv (run s calls) := by
  induction calls generalizing s with
  | nil => exact h
  | cons c rest ih => exact ih (applyCall s c) (stakeInv_applyCall s c h)

theorem applyCall_of_error (s : OracleState) (c : OracleCall) (e : OracleError)
    (h : callResult s c = .error e) : applyCall s c = s := by
  unfold applyCall
  rw [h]

/-! Claim theorems. -/

/-- C1: For every confirmed prediction, with the confidential engine
modelled by its plaintext stand-in, the amount merged into the user's
points accumulator by confirmPrediction equals the escrowed stake exactly
when direction = 1 and the recorded price exceeds the predicted price, or
direction = 2 and the recorded price is below the predicted price, and
equals 0 in every other case, including directions outside {1, 2} and a
recorded price equal to the predicted one. -/
theorem confirm_reward_correctness (s : OracleState) (sender ts asset day : Nat)
    (ha : asset ≤ 1) (hday : day ≤ currentDay ts)
    (hrec : s.priceRecorded asset day = true)
    (hex : (s.predictions sender asset day).exists_ = true)
    (hcf : (s.predictions sender asset day).confirmed = false)
    (hprice : s.dailyPrice asset day < 2 ^ 64)
    (hstake : (s.predictions sender asset day).stake < 2 ^ 128) :
    (applyCall s (.confirm sender ts asset day)).points sender =
      (s.points sender +
        (if ((s.predictions sender asset day).direction = 1 ∧
              (s.predictions sender asset day).price < s.dailyPrice asset day) ∨
            ((s.predictions sender asset day).direction = 2 ∧
              s.dailyPrice asset day < (s.predictions sender asset day).price)
         then (s.predictions sender asset day).stake else 0)) % 2 ^ 128 := by
  have hok := confirmPrediction_ok s sender ts asset day ha hday hrec hex hcf
  unfold applyCall
  dsimp only [callResult]
  rw [hok]
  dsimp only
  rw [if_pos rfl]
  congr 2
  simp only [rewardOf]
  rw [Nat.mod_eq_of_lt hprice]
  split_ifs with hC
  · exact Nat.mod_eq_of_lt hstake
  · rfl

theorem confirm_reward_correctness_witness :
    (applyCall sDemo2 (.confirm 1 86400 0 1)).points 1 =
      (sDemo2.points 1 +
        (if ((sDemo2.predictions 1 0 1).direction = 1 ∧
              (sDemo2.predictions 1 0 1).price < sDemo2.dailyPrice 0 1) ∨
            ((sDemo2.predictions 1 0 1).direction = 2 ∧
              sDemo2.dailyPrice 0 1 < (sDemo2.predictions 1 0 1).price)
         then (sDemo2.predictions 1 0 1).stake else 0)) % 2 ^ 128 :=
  confirm_reward_correctness sDemo2 1 86400 0 1 (by decide) (by decide)
    (by decide) (by decide) (by decide) (by decide) (by decide)

/-- C3: recordDailyPrice succeeds at most once per (asset, day): once the
key is recorded, an otherwise-valid second call by the owner at the same
day fails AlreadyRecorded, and the stored price and recorded flag of that
key survive any later sequence of transactions unchanged. -/
theorem record_price_write_once (s : OracleState) (asset day : Nat)
    (hrec : s.priceRecorded asset day = true)
    (sender ts price : Nat) (hsend : sender = s.owner) (ha : asset ≤ 1)
    (hp : price ≤ 2 ^ 64 - 1) (hts : currentDay ts = day) :
    recordDailyPrice s sender ts asset price = .error .AlreadyRecorded ∧
    ∀ calls : List OracleCall,
      (run s calls).priceRecorded asset day = true ∧
      (run s calls).dailyPrice asset day = s.dailyPrice asset day := by
  constructor
  · unfold recordDailyPrice
    rw [if_neg (by simp [hsend]), if_neg (by omega), if_neg (by omega),
      if_pos (by rw [hts]; exact hrec)]
  · intro calls
    exact run_recorded_preserved s calls asset day hrec

theorem record_price_write_once_witness :
    recordDailyPrice sDemo2 0 86400 0 2222 = .error .AlreadyRecorded ∧
    (run sDemo2 [cConfirmDemo]).priceRecorded 0 1 = true ∧
    (run sDemo2 [cConfirmDemo]).dailyPrice 0 1 = sDemo2.dailyPrice 0 1 := by
  obtain ⟨h1, h2⟩ := record_price_write_once sDemo2 0 1 (by decide) 0 86400 2222
    (by decide) (by decide) (by decide) (by decide)
  exact ⟨h1, (h2 [cConfirmDemo]).1, (h2 [cConfirmDemo]).2⟩

/-- C6: confirmPrediction with a valid asset fails TooEarly whenever the
requested day is still in the future, and fails PriceNotRecorded whenever
the day has elapsed but the price ledger has no entry for (asset, day) —
with no assumption whatsoever on the caller's prediction state. -/
theorem confirm_tooearly_pricenotrecorded (s : OracleState)
    (sender ts asset day : Nat) (ha : asset ≤ 1) :
    (currentDay ts < day →
      confirmPrediction s sender ts asset day = .error .TooEarly) ∧
    (day ≤ currentDay ts → s.priceRecorded asset day = false →
      confirmPrediction s sender ts asset day = .error .PriceNotRecorded) := by
  constructor
  · intro hlt
    unfold confirmPrediction
    rw [if_neg (by omega), if_pos hlt]
  · intro hle hnr
    unfold confirmPrediction
    rw [if_neg (by omega), if_neg (by omega), if_pos (by simp [hnr])]

theorem confirm_tooearly_pricenotrecorded_witness :
    confirmPrediction sDemo2 2 0 0 5 = .error .TooEarly ∧
    confirmPrediction sDemo2 2 864000 0 5 = .error .PriceNotRecorded :=
  ⟨(confirm_tooearly_pricenotrecorded sDemo2 2 0 0 5 (by decide)).1 (by decide),
   (confirm_tooearly_pricenotrecorded sDemo2 2 864000 0 5 (by decide)).2
     (by decide) (by decide)⟩

/-- C8: a failing invocation of any of the three entry points leaves the
entire contract storage — prices, recorded flags, latest days,
predictions, points and initialization flags — exactly as before the
call: a revert commits nothing. -/
theorem failed_call_leaves_state_unchanged (s : OracleState) (c : OracleCall)
    (e : OracleError) (h : callResult s c = .error e) :
    applyCall s c = s := by
  unfold applyCall
  rw [h]

theorem failed_call_leaves_state_unchanged_witness :
    applyCall (initState 0) (.record 1 0 0 5) = initState 0 :=
  failed_call_leaves_state_unchanged (initState 0) (.record 1 0 0 5)
    .Unauthorized rfl

/-- C9: in every reachable state, every existing prediction's stake is
positive and at most 2 ^ 128 - 1, so the uint256-to-uint128 narrowing of
the stake performed during settlement is lossless. -/
theorem stake_narrowing_lossless (s : OracleState) (h : Reachable s)
    (u a d : Nat) (hex : (s.predictions u a d).exists_ = true) :
    0 < (s.predictions u a d).stake ∧
    (s.predictions u a d).stake ≤ 2 ^ 128 - 1 ∧
    (s.predictions u a d).stake % 2 ^ 128 = (s.predictions u a d).stake := by
  obtain ⟨o, calls, hrun⟩ := h
  have hinv : StakeInv s := hrun ▸ stakeInv_run (initState o) calls (stakeInv_init o)
  obtain ⟨h1, h2⟩ := hinv u a d hex
  exact ⟨h1, h2, Nat.mod_eq_of_lt (by omega)⟩

theorem stake_narrowing_lossless_witness :
    0 < (sDemo1.predictions 1 0 1).stake ∧
    (sDemo1.predictions 1 0 1).stake ≤ 2 ^ 128 - 1 ∧
    (sDemo1.predictions 1 0 1).stake % 2 ^ 128 = (sDemo1.predictions 1 0 1).stake :=
  stake_narrowing_lossless sDemo1 ⟨0, [cPlaceDemo], rfl⟩ 1 0 1 (by decide)

/-- C4: a successful placePrediction stores the prediction under
day = currentDay + 1 sampled at call time (so never under today or a past
day: no other key changes), and a second placePrediction by the same user
for the same asset on the same calendar day fails PredictionExists and
changes nothing. -/
theorem place_prediction_tomorrow_unique (s : OracleState)
    (sender ts asset ep ed : Nat) (pv : Bool) (mv : Nat)
    (ha : asset ≤ 1) (hmv : 0 < mv) (hmv2 : mv ≤ 2 ^ 128 - 1)
    (habs : (s.predictions sender asset (currentDay ts + 1)).exists_ = false)
    (hpv : pv = true) :
    isSuccess (placePrediction s sender ts asset ep ed pv mv) = true ∧
    currentDay ts < currentDay ts + 1 ∧
    (applyCall s (.place sender ts asset ep ed pv mv)).predictions sender asset
        (currentDay ts + 1) =
      { price := ep % 2 ^ 64, direction := ed % 2 ^ 8, stake := mv,
        confirmed := false, exists_ := true } ∧
    (∀ u a d, ¬ (u = sender ∧ a = asset ∧ d = currentDay ts + 1) →
      (applyCall s (.place sender ts asset ep ed pv mv)).predictions u a d =
        s.predictions u a d) ∧
    (∀ ts2 ep2 ed2 : Nat, ∀ pv2 : Bool, ∀ mv2 : Nat,
      currentDay ts2 = currentDay ts → 0 < mv2 → mv2 ≤ 2 ^ 128 - 1 →
      placePrediction (applyCall s (.place sender ts asset ep ed pv mv))
          sender ts2 asset ep2 ed2 pv2 mv2 = .error .PredictionExists ∧
      applyCall (applyCall s (.place sender ts asset ep ed pv mv))
          (.place sender ts2 asset ep2 ed2 pv2 mv2) =
        applyCall s (.place sender ts asset ep ed pv mv)) := by
  have hok := placePrediction_ok s sender ts asset ep ed pv mv ha hmv hmv2 habs hpv
  have hs1 : applyCall s (.place sender ts asset ep ed pv mv) =
      initPoints sender { s with
        predictions := fun u a d =>
          if u = sender ∧ a = asset ∧ d = currentDay ts + 1 then
            { price := ep % 2 ^ 64, direction := ed % 2 ^ 8, stake := mv,
              confirmed := false, exists_ := true }
          else s.predictions u a d } := by
    unfold applyCall
    dsimp only [callResult]
    rw [hok]
  have hpred : (applyCall s (.place sender ts asset ep ed pv mv)).predictions =
      fun u a d =>
        if u = sender ∧ a = asset ∧ d = currentDay ts + 1 then
          { price := ep % 2 ^ 64, direction := ed % 2 ^ 8, stake := mv,
            confirmed := false, exists_ := true }
        else s.predictions u a d := by
    rw [hs1]
    exact (initPoints_fields sender _).2.2.2.2
  refine ⟨by rw [hok]; rfl, Nat.lt_succ_self _, ?_, ?_, ?_⟩
  · rw [hpred]
    dsimp only
    rw [if_pos ⟨rfl, rfl, rfl⟩]
  · intro u a d hne
    rw [hpred]
    dsimp only
    rw [if_neg hne]
  · intro ts2 ep2 ed2 pv2 mv2 hts2 hmv2a hmv2b
    have herr : placePrediction (applyCall s (.place sender ts asset ep ed pv mv))
        sender ts2 asset ep2 ed2 pv2 mv2 = .error .PredictionExists := by
      unfold placePrediction
      rw [if_neg (by omega), if_neg (by omega), if_neg (by omega),
        if_pos (by rw [hts2, hpred]; simp)]
    exact ⟨herr, applyCall_of_error _ (.place sender ts2 asset ep2 ed2 pv2 mv2)
      .PredictionExists herr⟩

theorem place_prediction_tomorrow_unique_witness :
    isSuccess (placePrediction sDemo0 1 0 0 1900 1 true 100000000000000000) = true ∧
    (applyCall sDemo0 (.place 1 0 0 1900 1 true 100000000000000000)).predictions 1 0 1 =
      { price := 1900 % 2 ^ 64, direction := 1 % 2 ^ 8, stake := 100000000000000000,
        confirmed := false, exists_ := true } ∧
    (applyCall sDemo0 (.place 1 0 0 1900 1 true 100000000000000000)).predictions 2 0 1 =
      sDemo0.predictions 2 0 1 ∧
    placePrediction (applyCall sDemo0 (.place 1 0 0 1900 1 true 100000000000000000))
      1 40000 0 2100 2 false 5 = .error .PredictionExists ∧
    applyCall (applyCall sDemo0 (.place 1 0 0 1900 1 true 100000000000000000))
      (.place 1 40000 0 2100 2 false 5) =
      applyCall sDemo0 (.place 1 0 0 1900 1 true 100000000000000000) := by
  obtain ⟨h1, h2, h3, h4, h5⟩ := place_prediction_tomorrow_unique sDemo0 1 0 0 1900 1
    true 100000000000000000 (by decide) (by decide) (by decide) (by decide) rfl
  obtain ⟨h6, h7⟩ := h5 40000 2100 2 false 5 (by decide) (by decide) (by decide)
  exact ⟨h1, h3, h4 2 0 1 (by decide), h6, h7⟩

/-- C5: for an existing unconfirmed prediction whose preconditions hold,
confirmPrediction succeeds the first time and fails AlreadyConfirmed the
second time; the caller's points accumulator is updated exactly once
across the two calls. -/
theorem confirm_idempotent (s : OracleState) (sender ts ts2 asset day : Nat)
    (ha : asset ≤ 1) (hday : day ≤ currentDay ts) (hday2 : day ≤ currentDay ts2)
    (hrec : s.priceRecorded asset day = true)
    (hex : (s.predictions sender asset day).exists_ = true)
    (hcf : (s.predictions sender asset day).confirmed = false) :
    isSuccess (confirmPrediction s sender ts asset day) = true ∧
    confirmPrediction (applyCall s (.confirm sender ts asset day))
      sender ts2 asset day = .error .AlreadyConfirmed ∧
    (applyCall s (.confirm sender ts asset day)).points sender =
      (s.points sender + rewardOf s sender asset day) % 2 ^ 128 ∧
    applyCall (applyCall s (.confirm sender ts asset day))
      (.confirm sender ts2 asset day) =
      applyCall s (.confirm sender ts asset day) := by
  have hok := confirmPrediction_ok s sender ts asset day ha hday hrec hex hcf
  have hs1 : applyCall s (.confirm sender ts asset day) = { s with
      points := fun u =>
        if u = sender then (s.points u + rewardOf s sender asset day) % 2 ^ 128
        else s.points u
      predictions := fun u a d =>
        if u = sender ∧ a = asset ∧ d = day then
          { s.predictions sender asset day with confirmed := true }
        else s.predictions u a d } := by
    unfold applyCall
    dsimp only [callResult]
    rw [hok]
  have hrec1 : (applyCall s (.confirm sender ts asset day)).priceRecorded asset day = true := by
    rw [hs1]
    exact hrec
  have hpred1 : (applyCall s (.confirm sender ts asset day)).predictions sender asset day =
      { s.predictions sender asset day with confirmed := true } := by
    rw [hs1]
    dsimp only
    rw [if_pos ⟨rfl, rfl, rfl⟩]
  have herr : confirmPrediction (applyCall s (.confirm sender ts asset day))
      sender ts2 asset day = .error .AlreadyConfirmed := by
    apply confirmPrediction_already _ _ _ _ _ ha hday2 hrec1
    · rw [hpred1]
      exact hex
    · rw [hpred1]
  refine ⟨by rw [hok]; rfl, herr, ?_,
    applyCall_of_error _ (.confirm sender ts2 asset day) .AlreadyConfirmed herr⟩
  rw [hs1]
  dsimp only
  rw [if_pos rfl]

theorem confirm_idempotent_witness :
    isSuccess (confirmPrediction sDemo2 1 86400 0 1) = true ∧
    confirmPrediction (applyCall sDemo2 (.confirm 1 86400 0 1)) 1 90000 0 1 =
      .error .AlreadyConfirmed ∧
    (applyCall sDemo2 (.confirm 1 86400 0 1)).points 1 =
      (sDemo2.points 1 + rewardOf sDemo2 1 0 1) % 2 ^ 128 ∧
    applyCall (applyCall sDemo2 (.confirm 1 86400 0 1)) (.confirm 1 90000 0 1) =
      applyCall sDemo2 (.confirm 1 86400 0 1) :=
  confirm_idempotent sDemo2 1 86400 90000 0 1 (by decide) (by decide) (by decide)
    (by decide) (by decide) (by decide)

/-- C2 counterexample: a principal other than the predicting user cannot
trigger the settlement of that user's prediction.  In a concrete state
where user 1's day-1 ETH prediction exists unconfirmed, the day has
elapsed and the price is recorded, a confirmPrediction call by user 2
fails PredictionMissing, the prediction stays unconfirmed, and user 1's
points are untouched. -/
theorem confirm_by_other_principal_cex :
    (sDemo2.predictions 1 0 1).exists_ = true ∧
    (sDemo2.predictions 1 0 1).confirmed = false ∧
    sDemo2.priceRecorded 0 1 = true ∧
    1 ≤ currentDay 86400 ∧
    confirmPrediction sDemo2 2 86400 0 1 = .error .PredictionMissing ∧
    ((applyCall sDemo2 (.confirm 2 86400 0 1)).predictions 1 0 1).confirmed = false ∧
    (applyCall sDemo2 (.confirm 2 86400 0 1)).points 1 = sDemo2.points 1 :=
  ⟨by decide, by decide, by decide, by decide, rfl, by decide, by decide⟩

/-- C2 amended: confirmation is scoped to the caller's own key.  For a
prediction whose day has elapsed and whose price is recorded, the
predicting user's own confirmPrediction call settles it — merging the
reward into that user's points accumulator and marking it confirmed —
while a call by any other principal holding no (asset, day) prediction of
its own fails PredictionMissing. -/
theorem confirm_caller_scoped (s : OracleState) (sender other ts asset day : Nat)
    (ha : asset ≤ 1) (hday : day ≤ currentDay ts)
    (hrec : s.priceRecorded asset day = true)
    (hex : (s.predictions sender asset day).exists_ = true)
    (hcf : (s.predictions sender asset day).confirmed = false)
    (hother : (s.predictions other asset day).exists_ = false) :
    isSuccess (confirmPrediction s sender ts asset day) = true ∧
    ((applyCall s (.confirm sender ts asset day)).predictions sender asset day).confirmed
      = true ∧
    (applyCall s (.confirm sender ts asset day)).points sender =
      (s.points sender + rewardOf s sender asset day) % 2 ^ 128 ∧
    confirmPrediction s other ts asset day = .error .PredictionMissing := by
  have hok := confirmPrediction_ok s sender ts asset day ha hday hrec hex hcf
  have hs1 : applyCall s (.confirm sender ts asset day) = { s with
      points := fun u =>
        if u = sender then (s.points u + rewardOf s sender asset day) % 2 ^ 128
        else s.points u
      predictions := fun u a d =>
        if u = sender ∧ a = asset ∧ d = day then
          { s.predictions sender asset day with confirmed := true }
        else s.predictions u a d } := by
    unfold applyCall
    dsimp only [callResult]
    rw [hok]
  refine ⟨by rw [hok]; rfl, ?_, ?_, ?_⟩
  · rw [hs1]
    dsimp only
    rw [if_pos ⟨rfl, rfl, rfl⟩]
  · rw [hs1]
    dsimp only
    rw [if_pos rfl]
  · exact confirmPrediction_missing s other ts asset day ha hday hrec hother

theorem confirm_caller_scoped_witness :
    isSuccess (confirmPrediction sDemo2 1 86400 0 1) = true ∧
    ((applyCall sDemo2 (.confirm 1 86400 0 1)).predictions 1 0 1).confirmed = true ∧
    (applyCall sDemo2 (.confirm 1 86400 0 1)).points 1 =
      (sDemo2.points 1 + rewardOf sDemo2 1 0 1) % 2 ^ 128 ∧
    confirmPrediction sDemo2 2 86400 0 1 = .error .PredictionMissing :=
  confirm_caller_scoped sDemo2 1 2 86400 0 1 (by decide) (by decide) (by decide)
    (by decide) (by decide) (by decide)

/-- C7: after any transaction sequence started at deployment state,
latestDay of an asset equals the day of the most recent successful
recordDailyPrice call for that asset (the initial value if none), and —
when the externally supplied timestamps are non-decreasing across the
sequence — latestDay never decreases along the sequence. -/
theorem latestDay_tracks_last_success (s : OracleState) (a : Nat)
    (pre post : List OracleCall)
    (hmono : (pre ++ post).Pairwise (fun c c2 => callTimestamp c ≤ callTimestamp c2))
    (hinit : ∀ a2, s.latestDay a2 = 0) :
    (run s (pre ++ post)).latestDay a =
      lastSuccessDay a s (s.latestDay a) (pre ++ post) ∧
    (run s pre).latestDay a ≤ (run s (pre ++ post)).latestDay a := by
  constructor
  · exact run_latestDay_lastSuccess (pre ++ post) s a _ rfl
  · rw [run_append]
    cases post with
    | nil => exact Nat.le_refl _
    | cons c0 rest =>
      have hpw := List.pairwise_append.mp hmono
      have hupper : ∀ a2, (run s pre).latestDay a2 ≤ currentDay (callTimestamp c0) := by
        apply run_latestDay_upper pre s (currentDay (callTimestamp c0))
        · intro a2
          rw [hinit a2]
          exact Nat.zero_le _
        · intro c hc
          exact Nat.div_le_div_right
            (hpw.2.2 c hc c0 (List.mem_cons_self c0 rest))
      have hts0 : ∀ c ∈ c0 :: rest,
          currentDay (callTimestamp c0) ≤ currentDay (callTimestamp c) := by
        intro c hc
        rcases List.mem_cons.mp hc with h | h
        · subst h
          exact Nat.le_refl _
        · exact Nat.div_le_div_right ((List.pairwise_cons.mp hpw.2.1).1 c h)
      exact run_latestDay_lower (c0 :: rest) (run s pre)
        (currentDay (callTimestamp c0)) hupper hts0 hpw.2.1 a

theorem latestDay_tracks_last_success_witness :
    (run (initState 0) ([.record 0 86400 0 2000] ++ [.record 0 172800 0 2100])).latestDay 0 =
      lastSuccessDay 0 (initState 0) ((initState 0).latestDay 0)
        ([.record 0 86400 0 2000] ++ [.record 0 172800 0 2100]) ∧
    (run (initState 0) [.record 0 86400 0 2000]).latestDay 0 ≤
      (run (initState 0) ([.record 0 86400 0 2000] ++ [.record 0 172800 0 2100])).latestDay 0 :=
  latestDay_tracks_last_success (initState 0) 0 [.record 0 86400 0 2000]
    [.record 0 172800 0 2100] (by decide) (fun _ => rfl)

/-- C10: a successful confirmPrediction by a caller changes only that
caller's (asset, day) prediction's confirmed flag and that caller's
points accumulator: the prediction's price, direction, stake and
existence fields, every other prediction slot, every price record and
latestDay entry, every other user's points and all initialization flags
are unchanged. -/
theorem confirm_frame_condition (s : OracleState) (sender ts asset day : Nat)
    (ha : asset ≤ 1) (hday : day ≤ currentDay ts)
    (hrec : s.priceRecorded asset day = true)
    (hex : (s.predictions sender asset day).exists_ = true)
    (hcf : (s.predictions sender asset day).confirmed = false) :
    isSuccess (confirmPrediction s sender ts asset day) = true ∧
    ((applyCall s (.confirm sender ts asset day)).predictions sender asset day).confirmed
      = true ∧
    ((applyCall s (.confirm sender ts asset day)).predictions sender asset day).price
      = (s.predictions sender asset day).price ∧
    ((applyCall s (.confirm sender ts asset day)).predictions sender asset day).direction
      = (s.predictions sender asset day).direction ∧
    ((applyCall s (.confirm sender ts asset day)).predictions sender asset day).stake
      = (s.predictions sender asset day).stake ∧
    ((applyCall s (.confirm sender ts asset day)).predictions sender asset day).exists_
      = (s.predictions sender asset day).exists_ ∧
    (∀ u a d, ¬ (u = sender ∧ a = asset ∧ d = day) →
      (applyCall s (.confirm sender ts asset day)).predictions u a d =
        s.predictions u a d) ∧
    (applyCall s (.confirm sender ts asset day)).dailyPrice = s.dailyPrice ∧
    (applyCall s (.confirm sender ts asset day)).priceRecorded = s.priceRecorded ∧
    (applyCall s (.confirm sender ts asset day)).latestDay = s.latestDay ∧
    (∀ u, u ≠ sender →
      (applyCall s (.confirm sender ts asset day)).points u = s.points u) ∧
    (applyCall s (.confirm sender ts asset day)).pointsInitialized
      = s.pointsInitialized ∧
    (applyCall s (.confirm sender ts asset day)).owner = s.owner ∧
    (applyCall s (.confirm sender ts asset day)).points sender =
      (s.points sender + rewardOf s sender asset day) % 2 ^ 128 := by
  have hok := confirmPrediction_ok s sender ts asset day ha hday hrec hex hcf
  have hs1 : applyCall s (.confirm sender ts asset day) = { s with
      points := fun u =>
        if u = sender then (s.points u + rewardOf s sender asset day) % 2 ^ 128
        else s.points u
      predictions := fun u a d =>
        if u = sender ∧ a = asset ∧ d = day then
          { s.predictions sender asset day with confirmed := true }
        else s.predictions u a d } := by
    unfold applyCall
    dsimp only [callResult]
    rw [hok]
  have hpredkey : (applyCall s (.confirm sender ts asset day)).predictions sender asset day
      = { s.predictions sender asset day with confirmed := true } := by
    rw [hs1]
    dsimp only
    rw [if_pos ⟨rfl, rfl, rfl⟩]
  refine ⟨by rw [hok]; rfl, ?_, ?_, ?_, ?_, ?_, ?_, ?_, ?_, ?_, ?_, ?_, ?_, ?_⟩
  · rw [hpredkey]
  · rw [hpredkey]
  · rw [hpredkey]
  · rw [hpredkey]
  · rw [hpredkey]
  · intro u a d hne
    rw [hs1]
    dsimp only
    rw [if_neg hne]
  · rw [hs1]
  · rw [hs1]
  · rw [hs1]
  · intro u hu
    rw [hs1]
    dsimp only
    rw [if_neg hu]
  · rw [hs1]
  · rw [hs1]
  · rw [hs1]
    dsimp only
    rw [if_pos rfl]

theorem confirm_frame_condition_witness :
    isSuccess (confirmPrediction sDemo2 1 86400 0 1) = true ∧
    ((applyCall sDemo2 (.confirm 1 86400 0 1)).predictions 1 0 1).confirmed = true ∧
    ((applyCall sDemo2 (.confirm 1 86400 0 1)).predictions 1 0 1).price =
      (sDemo2.predictions 1 0 1).price ∧
    ((applyCall sDemo2 (.confirm 1 86400 0 1)).predictions 1 0 1).stake =
      (sDemo2.predictions 1 0 1).stake ∧
    (applyCall sDemo2 (.confirm 1 86400 0 1)).predictions 2 0 1 =
      sDemo2.predictions 2 0 1 ∧
    (applyCall sDemo2 (.confirm 1 86400 0 1)).dailyPrice = sDemo2.dailyPrice ∧
    (applyCall sDemo2 (.confirm 1 86400 0 1)).latestDay = sDemo2.latestDay ∧
    (applyCall sDemo2 (.confirm 1 86400 0 1)).points 2 = sDemo2.points 2 ∧
    (applyCall sDemo2 (.confirm 1 86400 0 1)).points 1 =
      (sDemo2.points 1 + rewardOf sDemo2 1 0 1) % 2 ^ 128 := by
  obtain ⟨h1, h2, h3, h4, h5, h6, h7, h8, h9, h10, h11, h12, h13, h14⟩ :=
    confirm_frame_condition sDemo2 1 86400 0 1 (by decide) (by decide) (by decide)
      (by decide) (by decide)
  exact ⟨h1, h2, h3, h5, h7 2 0 1 (by decide), h8, h10, h11 2 (by decide), h14⟩

end PrivOracle
